import Mathlib

/-!
Verification development for the novel-writing agent repository
(`novel_bot`): a shallow embedding, in Lean 4, of the conversation-state
and tool-calling control loop (`agent/loop.py`), the tool registry with
its argument repair pipeline (`agent/tools.py`), the persistent memory
store (`agent/memory.py`) and the sync analysis (`agent/sync_runner.py`),
together with theorems settling the frozen specification claims.

Python dictionaries holding conversation messages are embedded as the
`Msg` structure; JSON values as the `Json` inductive (numbers keep their
lexeme, which is enough because no claim computes with numerals); the
workspace filesystem as an association list from relative paths to file
contents.  Strings that Python cleans of surrogate code points are
already well-formed in Lean, so `_clean_content` is the identity here.
-/

namespace NovelBot

/-- Role of a conversation message (the `role` field of the message
dicts built in `agent/loop.py`). -/
inductive Role
  | user
  | assistant
  | tool
  | system
deriving DecidableEq

/-- One entry of an assistant message's `tool_calls` array, mirroring
the wire shape `{id, type, function: {name, arguments}}`. -/
structure ToolCallRec where
  id : String
  ctype : String
  name : String
  arguments : String
deriving DecidableEq

/-- A conversation message as built by `AgentLoop`: Python dicts with
optional `tool_calls` / `tool_call_id` keys become fields with empty
list / `none` defaults (matching Python truthiness of `msg.get`). -/
structure Msg where
  role : Role
  content : String
  toolCalls : List ToolCallRec := []
  toolCallId : Option String := none
deriving DecidableEq

/-- A chat-completion response as consumed by the loop: text content
plus the requested tool calls (`response.content or ""` maps `None`
content to the empty string). -/
structure Response where
  content : String
  toolCalls : List ToolCallRec
deriving DecidableEq

/-! ### String helpers (Python `in`, `str.replace`, `str.lower`) -/

/-- Decide whether `nd` occurs as a contiguous run inside `hay`
(Python's `nd in hay` on strings), on character lists. -/
def listHasSub : List Char → List Char → Bool
  | [], nd => nd.isPrefixOf []
  | c :: t, nd => nd.isPrefixOf (c :: t) || listHasSub t nd

/-- Python's substring containment `nd in hay`. -/
def strContains (hay nd : String) : Bool :=
  listHasSub hay.toList nd.toList

theorem listHasSub_of_isPrefixOf (hay nd : List Char) (h : nd.isPrefixOf hay) :
    listHasSub hay nd = true := by
  cases hay <;> simp [listHasSub] at h ⊢ <;> simp [h]

theorem listHasSub_append (a nd b : List Char) :
    listHasSub (a ++ nd ++ b) nd = true := by
  induction a with
  | nil =>
    apply listHasSub_of_isPrefixOf
    simp [List.isPrefixOf_iff_prefix]
  | cons c t ih =>
    simp only [List.cons_append, listHasSub]
    rw [show (t.append nd).append b = t ++ nd ++ b from rfl, ih, Bool.or_true]

/-- Python's `", ".join(parts)`. -/
def joinComma : List String → String
  | [] => ""
  | [x] => x
  | x :: y :: t => x ++ ", " ++ joinComma (y :: t)

/-- Python `s.startswith(pre)` (char-list based so terms reduce
definitionally). -/
def strStarts (s pre : String) : Bool :=
  pre.toList.isPrefixOf s.toList

/-- Python `s.endswith(suf)`. -/
def strEnds (s suf : String) : Bool :=
  suf.toList.isSuffixOf s.toList

/-- Python `s.lower()` (ASCII case folding). -/
def strToLower (s : String) : String :=
  String.mk (s.toList.map Char.toLower)

/-- Drop the first `n` characters. -/
def strDropChars (s : String) (n : Nat) : String :=
  String.mk (s.toList.drop n)

/-- Python `s.strip()`: remove leading and trailing whitespace. -/
def strTrim (s : String) : String :=
  String.mk (((s.toList.dropWhile Char.isWhitespace).reverse.dropWhile
    Char.isWhitespace).reverse)

/-- Left-to-right non-overlapping replacement, the semantics shared by
Python `str.replace` and the uses in the source; the fuel (the input
length) suffices because every call site passes a nonempty pattern. -/
def replaceCharsF (pat rep : List Char) : Nat → List Char → List Char
  | 0, s => s
  | _ + 1, [] => []
  | fuel + 1, c :: t =>
    if pat.isPrefixOf (c :: t) then rep ++ replaceCharsF pat rep fuel ((c :: t).drop pat.length)
    else c :: replaceCharsF pat rep fuel t

/-- Python `s.replace(pat, rep)` for nonempty `pat` (all patterns in
the source are nonempty literals). -/
def strReplace (s pat rep : String) : String :=
  if pat.toList.isEmpty then s
  else String.mk (replaceCharsF pat.toList rep.toList s.toList.length s.toList)

/-! ### JSON values and parser (embedding of `json.loads`)

`json.loads` is the reference parser that the argument-repair pipeline
in `ToolRegistry.parse_arguments` wraps.  Numbers are kept as their
lexeme (no claim computes with numeric argument values); `NaN` and the
infinities accepted by Python's default decoder are number lexemes too.
Strict-mode rejection of raw control characters inside strings is
modelled, because it is exactly what makes the repair pass necessary. -/

inductive Json
  | null
  | bool (b : Bool)
  | num (lexeme : String)
  | str (s : String)
  | arr (elems : List Json)
  | obj (members : List (String × Json))

/-- JSON whitespace accepted between tokens by `json.loads`. -/
def jsonWs (c : Char) : Bool :=
  c = ' ' || c = '\t' || c = '\n' || c = '\r'

/-- Drop leading JSON whitespace. -/
def skipWs (s : List Char) : List Char :=
  s.dropWhile jsonWs

/-- Decode one string literal body (after the opening quote), handling
the escapes `json.loads` accepts and rejecting raw control characters
(strict mode).  Returns the decoded text and the remaining input. -/
def parseStrBody : List Char → Option (List Char × List Char)
  | [] => none
  | c :: rest =>
    if c = '"' then some ([], rest)
    else if c = '\\' then
      match rest with
      | [] => none
      | e :: rest2 =>
        let dec : Option Char :=
          if e = '"' then some '"'
          else if e = '\\' then some '\\'
          else if e = '/' then some '/'
          else if e = 'b' then some (Char.ofNat 8)
          else if e = 'f' then some (Char.ofNat 12)
          else if e = 'n' then some '\n'
          else if e = 'r' then some '\r'
          else if e = 't' then some '\t'
          else none
        match dec with
        | some d =>
          match parseStrBody rest2 with
          | some (tl, rem) => some (d :: tl, rem)
          | none => none
        | none =>
          if e = 'u' then
            match rest2 with
            | h1 :: h2 :: h3 :: h4 :: rest3 =>
              if isHexD h1 && isHexD h2 && isHexD h3 && isHexD h4 then
                let v := 4096 * hexVal h1 + 256 * hexVal h2 + 16 * hexVal h3 + hexVal h4
                match parseStrBody rest3 with
                | some (tl, rem) => some (Char.ofNat v :: tl, rem)
                | none => none
              else none
            | _ => none
          else none
    else if c.toNat < 32 then none
    else
      match parseStrBody rest with
      | some (tl, rem) => some (c :: tl, rem)
      | none => none
where
  isHexD (c : Char) : Bool :=
    c.isDigit || ('a' ≤ c && c ≤ 'f') || ('A' ≤ c && c ≤ 'F')
  hexVal (c : Char) : Nat :=
    if c.isDigit then c.toNat - 48
    else if 'a' ≤ c ∧ c ≤ 'f' then c.toNat - 87
    else if 'A' ≤ c ∧ c ≤ 'F' then c.toNat - 55
    else 0

/-- Lex one JSON number (grammar of `json.loads`): optional minus,
integer part without leading zeros, optional fraction, optional
exponent.  Returns the lexeme and the remaining input. -/
def parseNumLex (s : List Char) : Option (List Char × List Char) :=
  let (sign, s1) :=
    match s with
    | '-' :: t => (['-'], t)
    | _ => (([] : List Char), s)
  match s1 with
  | [] => none
  | c :: _ =>
    if ¬ c.isDigit then none
    else
      let intPart := s1.takeWhile Char.isDigit
      let s2 := s1.dropWhile Char.isDigit
      if intPart.length > 1 ∧ intPart.headD '0' = '0' then none
      else
        let (fracPart, s3) :=
          match s2 with
          | '.' :: t =>
            let ds := t.takeWhile Char.isDigit
            if ds = [] then ([], s2) else ('.' :: ds, t.dropWhile Char.isDigit)
          | _ => (([] : List Char), s2)
        if fracPart = [] ∧ s2 ≠ s3 then none
        else
          let (expPart, s4) :=
            match s3 with
            | e :: t =>
              if e = 'e' ∨ e = 'E' then
                let (es, t1) :=
                  match t with
                  | '+' :: t2 => (['+'], t2)
                  | '-' :: t2 => (['-'], t2)
                  | _ => (([] : List Char), t)
                let ds := t1.takeWhile Char.isDigit
                if ds = [] then (([] : List Char), s3)
                else (e :: (es ++ ds), t1.dropWhile Char.isDigit)
              else (([] : List Char), s3)
            | [] => (([] : List Char), s3)
          some (sign ++ intPart ++ fracPart ++ expPart, s4)

mutual

/-- Parse one JSON value; `fuel` strictly decreases on every recursive
call (callers supply `input.length + 2`, ample since every call site
has consumed at least one character). -/
def parseV : Nat → List Char → Option (Json × List Char)
  | 0, _ => none
  | fuel + 1, s =>
    match skipWs s with
    | [] => none
    | c :: rest =>
      if c = '{' then parseObjRest fuel rest []
      else if c = '[' then parseArrRest fuel rest []
      else if c = '"' then
        match parseStrBody rest with
        | some (txt, rem) => some (Json.str (String.mk txt), rem)
        | none => none
      else if c = 't' then
        if ['r', 'u', 'e'].isPrefixOf rest then some (Json.bool true, rest.drop 3) else none
      else if c = 'f' then
        if ['a', 'l', 's', 'e'].isPrefixOf rest then some (Json.bool false, rest.drop 4) else none
      else if c = 'n' then
        if ['u', 'l', 'l'].isPrefixOf rest then some (Json.null, rest.drop 3) else none
      else if c = 'N' then
        if ['a', 'N'].isPrefixOf rest then some (Json.num "NaN", rest.drop 2) else none
      else if c = 'I' then
        if ['n', 'f', 'i', 'n', 'i', 't', 'y'].isPrefixOf rest then
          some (Json.num "Infinity", rest.drop 7)
        else none
      else if c = '-' ∧ rest.headD ' ' = 'I' then
        if ['I', 'n', 'f', 'i', 'n', 'i', 't', 'y'].isPrefixOf rest then
          some (Json.num "-Infinity", rest.drop 8)
        else none
      else
        match parseNumLex (c :: rest) with
        | some (lex, rem) => some (Json.num (String.mk lex), rem)
        | none => none

/-- Parse the members of an object after the opening brace, given the
members accumulated so far (in order). -/
def parseObjRest : Nat → List Char → List (String × Json) → Option (Json × List Char)
  | 0, _, _ => none
  | fuel + 1, s, acc =>
    match skipWs s with
    | [] => none
    | c :: rest =>
      if c = '}' then
        if acc.isEmpty then some (Json.obj [], rest) else none
      else if c = '"' then
        match parseStrBody rest with
        | some (key, rem) =>
          match skipWs rem with
          | ':' :: rem2 =>
            match parseV fuel rem2 with
            | some (v, rem3) =>
              match skipWs rem3 with
              | ',' :: rem4 => parseObjRest fuel rem4 (acc ++ [(String.mk key, v)])
              | '}' :: rem4 => some (Json.obj (acc ++ [(String.mk key, v)]), rem4)
              | _ => none
            | none => none
          | _ => none
        | none => none
      else none

/-- Parse the elements of an array after the opening bracket. -/
def parseArrRest : Nat → List Char → List Json → Option (Json × List Char)
  | 0, _, _ => none
  | fuel + 1, s, acc =>
    match skipWs s with
    | [] => none
    | c :: rest =>
      if c = ']' then
        if acc.isEmpty then some (Json.arr [], rest) else none
      else
        match parseV fuel s with
        | some (v, rem) =>
          match skipWs rem with
          | ',' :: rem2 => parseArrRest fuel rem2 (acc ++ [v])
          | ']' :: rem2 => some (Json.arr (acc ++ [v]), rem2)
          | _ => none
        | none => none

end

/-- Embedding of `json.loads raw`: parse one value and require only
whitespace to remain.  `none` models a raised `JSONDecodeError`. -/
def jsonParse (raw : String) : Option Json :=
  match parseV (raw.length + 2) raw.toList with
  | some (v, rem) => if skipWs rem = [] then some v else none
  | none => none

/-! ### `ToolRegistry.parse_arguments` — the three-stage repair pipeline -/

/-- Character-by-character re-escaping pass of `parse_arguments`
(`agent/tools.py` lines 197-244): tracks string/escape state, escapes
literal newlines/tabs/returns inside strings, and doubles stray
backslashes.  The Bool arguments are `escape_next` and `in_string`; the
result pairs the cleaned characters with the final `in_string` flag. -/
def cleanLoop : List Char → Bool → Bool → (List Char × Bool)
  | [], _, inString => ([], inString)
  | c :: rest, true, inString =>
    let (out, fin) := cleanLoop rest false inString
    (c :: out, fin)
  | c :: rest, false, inString =>
    if c = '\\' then
      match rest with
      | [] => (['\\', '\\'], inString)
      | n :: _ =>
        if n = '"' ∨ n = '\\' ∨ n = 'n' ∨ n = 'r' ∨ n = 't' ∨ n = 'b' ∨ n = 'f' then
          let (out, fin) := cleanLoop rest true inString
          ('\\' :: out, fin)
        else
          let (out, fin) := cleanLoop rest false inString
          ('\\' :: '\\' :: out, fin)
    else if c = '"' then
      let (out, fin) := cleanLoop rest false (!inString)
      ('"' :: out, fin)
    else if inString then
      if c = '\n' then
        let (out, fin) := cleanLoop rest false inString
        ('\\' :: 'n' :: out, fin)
      else if c = '\r' then
        let (out, fin) := cleanLoop rest false inString
        ('\\' :: 'r' :: out, fin)
      else if c = '\t' then
        let (out, fin) := cleanLoop rest false inString
        ('\\' :: 't' :: out, fin)
      else
        let (out, fin) := cleanLoop rest false inString
        (c :: out, fin)
    else
      let (out, fin) := cleanLoop rest false inString
      (c :: out, fin)

/-- Whole repair stage: run the cleaning pass, close an unterminated
trailing string with `"}`and add missing closing braces (the brace
count is an integer, and braces are added only while it is positive). -/
def repairStage (raw : List Char) : List Char :=
  let (out, inStr) := cleanLoop raw false false
  let out2 := if inStr then out ++ ['"', '}'] else out
  let bal : Int :=
    out2.foldl (fun a c => if c = '{' then a + 1 else if c = '}' then a - 1 else a) 0
  out2 ++ List.replicate bal.toNat '}'

/-- ASCII interpretation of the regex class `\s` used by the fallback
extractor's marker pattern. -/
def wsSet (c : Char) : Bool :=
  c = ' ' || c = '\t' || c = '\n' || c = '\r' || c = Char.ofNat 11 || c = Char.ofNat 12

/-- Try to match the marker regex `"key"\s*:\s*"` at the head of `s`,
returning the input just after the opening quote of the value. -/
def markerTail (key : List Char) (s : List Char) : Option (List Char) :=
  match s with
  | '"' :: r1 =>
    if key.isPrefixOf r1 then
      match r1.drop key.length with
      | '"' :: r2 =>
        match r2.dropWhile wsSet with
        | ':' :: r3 =>
          match r3.dropWhile wsSet with
          | '"' :: r4 => some r4
          | _ => none
        | _ => none
      | _ => none
    else none
  | _ => none

/-- Leftmost occurrence of the marker (the `re.search` in
`_extract_text_tool_arguments`): scan positions left to right. -/
def findMarker (key : List Char) : List Char → Option (List Char)
  | [] => none
  | c :: t =>
    match markerTail key (c :: t) with
    | some r => some r
    | none => findMarker key t

/-- The forward value scan of `_extract_text_tool_arguments`: read
until a quote followed (after optional blanks) by `,`, `}` or the end
of input; backslashes carry the following character; literal quotes
inside the value are kept. -/
def scanValue : List Char → List Char
  | [] => []
  | '\\' :: rest =>
    match rest with
    | [] => ['\\']
    | d :: rest2 => '\\' :: d :: scanValue rest2
  | '"' :: rest =>
    match rest.dropWhile (fun c => c = ' ' || c = '\t' || c = '\r' || c = '\n') with
    | [] => []
    | c :: _ => if c = ',' ∨ c = '}' then [] else '"' :: scanValue rest
  | c :: rest => c :: scanValue rest

/-- `ToolRegistry._unescape_text`: sequential `str.replace` calls
collapsing doubled backslashes and the common escapes, optionally
stripping surrounding whitespace. -/
def unescapeText (value : String) (keepSurroundingWhitespace : Bool) : String :=
  let converted :=
    strReplace (strReplace (strReplace (strReplace value "\\\\" "\\") "\\n" "\n") "\\r" "\r") "\\t" "\t"
  if keepSurroundingWhitespace then converted else strTrim converted

/-- `extract_key_string` inside `_extract_text_tool_arguments`. -/
def extractKeyString (raw : String) (key : String) : Option String :=
  (findMarker key.toList raw.toList).map
    (fun tail => unescapeText (String.mk (scanValue tail)) true)

/-- `ToolRegistry._extract_text_tool_arguments`: positional fallback
extraction of known string parameters for the long-text tools. -/
def extractTextToolArguments (raw : String) (toolName : String) : Option Json :=
  if toolName = "write_file" then
    match extractKeyString raw "filename", extractKeyString raw "content" with
    | some fn, some ct =>
      some (Json.obj [("filename", Json.str (unescapeText fn false)), ("content", Json.str ct)])
    | _, _ => none
  else if toolName = "append_file" then
    match extractKeyString raw "filename", extractKeyString raw "content" with
    | some fn, some ct =>
      some (Json.obj [("filename", Json.str (unescapeText fn false)), ("content", Json.str ct)])
    | _, _ => none
  else if toolName = "memorize_important_fact" then
    (extractKeyString raw "content").map (fun c => Json.obj [("content", Json.str c)])
  else if toolName = "memorize_chapter_event" then
    match extractKeyString raw "chapter_title", extractKeyString raw "memory_summary" with
    | some t, some s =>
      some (Json.obj [("chapter_title", Json.str (unescapeText t false)), ("memory_summary", Json.str s)])
    | _, _ => none
  else none

/-- `ToolRegistry.parse_arguments`: direct parse, then the re-escaping
repair, then the positional fallback; `none` models the final raised
`ValueError`. -/
def parseArguments (raw : String) (toolName : String) : Option Json :=
  match jsonParse raw with
  | some v => some v
  | none =>
    match jsonParse (String.mk (repairStage raw.toList)) with
    | some v => some v
    | none => extractTextToolArguments raw toolName

/-! ### `MemoryStore` — the workspace as an association list -/

/-- The workspace filesystem: relative path to file text, one entry per
existing file. -/
abbrev Store := List (String × String)

def lookupStore : Store → String → Option String
  | [], _ => none
  | (k, v) :: rest, key => if k = key then some v else lookupStore rest key

/-- Create-or-overwrite a file, keeping one entry per path. -/
def storeWrite : Store → String → String → Store
  | [], key, v => [(key, v)]
  | (k, w) :: rest, key, v =>
    if k = key then (key, v) :: rest else (k, w) :: storeWrite rest key v

theorem lookupStore_write_self (st : Store) (k v : String) :
    lookupStore (storeWrite st k v) k = some v := by
  induction st with
  | nil => simp [storeWrite, lookupStore]
  | cons hd tl ih =>
    obtain ⟨k', v'⟩ := hd
    by_cases h : k' = k <;> simp [storeWrite, lookupStore, h, ih]

/-- `MemoryStore.read`: contents of an existing file, else `""`
(surrogate cleaning is the identity on well-formed text). -/
def memoryRead (st : Store) (filename : String) : String :=
  (lookupStore st filename).getD ""

/-- `MemoryStore.write` (tool `write_file`): create-or-overwrite and
report success. -/
def memoryWrite (st : Store) (filename content : String) : String × Store :=
  ("File " ++ filename ++ " written successfully.", storeWrite st filename content)

/-- `MemoryStore.append` (tool `append_file`): append `content` plus a
newline, creating the file when absent. -/
def memoryAppend (st : Store) (filename content : String) : String × Store :=
  ("Appended to " ++ filename ++ ".",
    storeWrite st filename (memoryRead st filename ++ content ++ "\n"))

/-- `MemoryStore.update_global_memory` (tool `memorize_important_fact`):
append a bullet to `memory/MEMORY.md`. -/
def updateGlobalMemory (st : Store) (content : String) : String × Store :=
  ("Global memory updated.",
    storeWrite st "memory/MEMORY.md" (memoryRead st "memory/MEMORY.md" ++ "\n- " ++ content))

/-- Characters kept by the chapter-title sanitizer: alphanumerics,
space, hyphen, underscore (Lean's `Char.isAlphanum` is the ASCII
restriction of Python's Unicode `str.isalnum`; the structural
properties proved below do not depend on the difference). -/
def keepChar (c : Char) : Bool :=
  c.isAlphanum || c = ' ' || c = '-' || c = '_'

/-- `str.strip` after the filter: only spaces can remain as whitespace,
so stripping removes leading and trailing spaces. -/
def stripSpaces (l : List Char) : List Char :=
  ((l.dropWhile (· = ' ')).reverse.dropWhile (· = ' ')).reverse

/-- The filename sanitizer shared by `save_chapter_memory` and
`read_chapter_memory`: keep alphanumerics, spaces, hyphens and
underscores, strip, then replace spaces with underscores. -/
def sanitizeTitle (t : String) : String :=
  String.mk ((stripSpaces (t.toList.filter keepChar)).map (fun c => if c = ' ' then '_' else c))

/-- Path of a chapter-memory file inside `memory/chapters/`. -/
def chapterMemoryPath (chapterTitle : String) : String :=
  "memory/chapters/" ++ sanitizeTitle chapterTitle ++ ".md"

/-- `MemoryStore.save_chapter_memory` (tool `memorize_chapter_event`). -/
def saveChapterMemory (st : Store) (chapterTitle memorySummary : String) : String × Store :=
  ("Chapter memory for '" ++ chapterTitle ++ "' saved successfully.",
    storeWrite st (chapterMemoryPath chapterTitle) memorySummary)

/-- `MemoryStore.read_chapter_memory`. -/
def readChapterMemory (st : Store) (chapterTitle : String) : String :=
  memoryRead st (chapterMemoryPath chapterTitle)

/-! ### Globbing and directory listings over the store -/

/-- `pathlib` glob matching: `*` matches any run of characters inside
one path segment (never `/`), other characters match literally.  The
fuel strictly decreases on each call and `pattern.length +
text.length + 1` always suffices, keeping the recursion structural so
terms reduce definitionally. -/
def globMatchF : Nat → List Char → List Char → Bool
  | 0, _, _ => false
  | _ + 1, [], [] => true
  | _ + 1, [], _ :: _ => false
  | fuel + 1, '*' :: ps, [] => globMatchF fuel ps []
  | fuel + 1, '*' :: ps, c :: cs =>
    (decide (c ≠ '/') && globMatchF fuel ('*' :: ps) cs) || globMatchF fuel ps (c :: cs)
  | _ + 1, _ :: _, [] => false
  | fuel + 1, p :: ps, c :: cs => decide (p = c) && globMatchF fuel ps cs

def globMatch (p s : List Char) : Bool :=
  globMatchF (p.length + s.length + 1) p s

/-- Glob matching on strings. -/
def strGlob (pattern name : String) : Bool :=
  globMatch pattern.toList name.toList

/-- Names of the files directly inside directory `dir` (one further
path segment, as `dir.glob` sees them). -/
def childNames (st : Store) (dir : String) : List String :=
  st.filterMap (fun kv =>
    let pre := dir ++ "/"
    if strStarts kv.1 pre then
      let name := strDropChars kv.1 pre.length
      if name ≠ "" ∧ ¬ strContains name "/" then some name else none
    else none)

/-- `MemoryStore.list_files`: workspace-relative paths matching the
glob pattern. -/
def listFiles (st : Store) (pattern : String) : List String :=
  (st.map (·.1)).filter (strGlob pattern)

/-- Python `str(list_of_str)` rendering, used because `execute` returns
`str(result)`. -/
def pyListRepr (l : List String) : String :=
  "[" ++ joinComma (l.map (fun s => "'" ++ s ++ "'")) ++ "]"

/-- Code-point comparison of characters. -/
def charLtB (a b : Char) : Bool :=
  a.toNat < b.toNat

/-- Python string comparison: lexicographic by code point, a proper
prefix is smaller. -/
def charListLtB : List Char → List Char → Bool
  | _, [] => false
  | [], _ :: _ => true
  | a :: as, b :: bs =>
    if charLtB a b then true
    else if charLtB b a then false
    else charListLtB as bs

/-- Python string comparison as a Bool. -/
def strLtB (a b : String) : Bool :=
  charListLtB a.toList b.toList

def insertSorted (x : String) : List String → List String
  | [] => [x]
  | y :: t => if strLtB x y then x :: y :: t else y :: insertSorted x t

/-- `sorted` on a list of names. -/
def sortStrings (l : List String) : List String :=
  l.foldr insertSorted []

/-- `Path.stem`: the name with its final extension removed. -/
def stemOf (name : String) : String :=
  let l := name.toList
  if l.contains '.' then
    String.mk ((l.reverse.dropWhile (· ≠ '.')).drop 1 |>.reverse)
  else name

/-- Python `str.isdigit` on ASCII text: nonempty and all digits. -/
def isDigits (s : String) : Bool :=
  s ≠ "" && s.toList.all Char.isDigit

/-- Numeric value of a digit string (Python `int`). -/
def natOfDigits (s : String) : Nat :=
  s.toList.foldl (fun a c => 10 * a + (c.toNat - 48)) 0

/-- Draft chapter files as enumerated by `get_writing_progress`:
`drafts/chapter_*.md` whose stem minus every `chapter_` occurrence is a
digit string. -/
def progressChapterFiles (st : Store) : List String :=
  sortStrings ((childNames st "drafts").filter
    (fun n => strGlob "chapter_*.md" n && isDigits (strReplace (stemOf n) "chapter_" "")))

/-- `MemoryStore.get_writing_progress`: the human-readable progress
report (latest chapter, totals, summary freshness, recent drafts with
their byte sizes). -/
def getWritingProgress (st : Store) : String :=
  let chapterFiles := progressChapterFiles st
  let totalChapters := chapterFiles.length
  let latestChapter :=
    (chapterFiles.map (fun n => natOfDigits (strReplace (stemOf n) "chapter_" ""))).foldl max 0
  let summary := memoryRead st "STORY_SUMMARY.md"
  let summaryStatus := if summary ≠ "" ∧ summary.length > 100 then "exists" else "needs_update"
  let memoryFiles := (childNames st "memory/chapters").filter (strGlob "*.md")
  let recentFiles := chapterFiles.drop (totalChapters - 5)
  let recentLines :=
    if recentFiles.isEmpty then "- No chapters found in drafts/\n"
    else
      String.join (recentFiles.reverse.map (fun n =>
        "- " ++ n ++ " (" ++ toString (memoryRead st ("drafts/" ++ n)).utf8ByteSize ++ " bytes)\n"))
  "## Current Writing Progress\n\n- **Latest Chapter**: Chapter " ++ toString latestChapter ++
    "\n- **Total Chapters Written**: " ++ toString totalChapters ++
    "\n- **Chapter Memories Saved**: " ++ toString memoryFiles.length ++
    "\n- **Story Summary Status**: " ++ summaryStatus ++
    "\n\n### Recent Drafts\n" ++ recentLines

/-! ### `ToolRegistry.execute` -/

/-- The tools registered by `_register_defaults`, in registration
order. -/
def registeredNames : List String :=
  ["read_file", "write_file", "list_files", "append_file",
   "memorize_chapter_event", "memorize_important_fact", "get_writing_progress"]

/-- Required parameters of each tool, as `inspect.signature` computes
them from the bound `MemoryStore` methods (parameters without default
values; `list_files` has a default pattern, `get_writing_progress`
takes nothing). -/
def requiredParams : String → List String
  | "read_file" => ["filename"]
  | "write_file" => ["filename", "content"]
  | "list_files" => []
  | "append_file" => ["filename", "content"]
  | "memorize_chapter_event" => ["chapter_title", "memory_summary"]
  | "memorize_important_fact" => ["content"]
  | _ => []

/-- All keyword parameters each tool accepts (for `**args` binding). -/
def paramNames : String → List String
  | "read_file" => ["filename"]
  | "write_file" => ["filename", "content"]
  | "list_files" => ["pattern"]
  | "append_file" => ["filename", "content"]
  | "memorize_chapter_event" => ["chapter_title", "memory_summary"]
  | "memorize_important_fact" => ["content"]
  | _ => []

/-- Dictionary lookup on parsed JSON object members (duplicate keys:
the last value wins, as in a Python dict built by `json.loads`). -/
def objLookup (kvs : List (String × Json)) (k : String) : Option Json :=
  ((kvs.filter (fun p => p.1 = k)).getLast?).map (·.2)

/-- The validation in `execute` counts a parameter as missing when the
key is absent, the value is `None`, or the value equals `""`. -/
def jsonCountsMissing : Option Json → Bool
  | none => true
  | some Json.null => true
  | some (Json.str s) => s = ""
  | some _ => false

/-- Python `p == elem` where `p` is a string, for `p in list`. -/
def isStrEq (p : String) : Json → Bool
  | Json.str s => s = p
  | _ => false

/-- The list comprehension computing `missing` in `execute`, with
Python's `in` semantics on whatever `json.loads` returned: `none`
models a `TypeError` escaping to the catch-all handler (membership on a
number, or indexing a list/string). -/
def missingScan (args : Json) : List String → Option (List String)
  | [] => some []
  | p :: t =>
    match args with
    | Json.obj kvs =>
      if kvs.any (fun kv => kv.1 = p) then
        if jsonCountsMissing (objLookup kvs p) then (missingScan args t).map (p :: ·)
        else missingScan args t
      else (missingScan args t).map (p :: ·)
    | Json.arr es =>
      if es.any (isStrEq p) then none else (missingScan args t).map (p :: ·)
    | Json.str s =>
      if strContains s p then none else (missingScan args t).map (p :: ·)
    | _ => none

/-- Result string for a runtime exception caught at the tool boundary
(`except Exception as e: return f"Error: {e}"`); the exception text
varies, no claim depends on it beyond the `Error:` marker. -/
def runtimeErrorResult : String :=
  "Error: TypeError"

/-- Python f-string rendering of a JSON value (`None`/`True`/`False`
for the singletons; containers are approximated, they never occur in
the compaction placeholders any claim touches). -/
def pyStr : Json → String
  | Json.null => "None"
  | Json.bool true => "True"
  | Json.bool false => "False"
  | Json.num lex => lex
  | Json.str s => s
  | Json.arr _ => "[...]"
  | Json.obj _ => "\x7b...\x7d"

/-- String argument fetch for an operation parameter; `none` when the
value is present but not text (the operation then raises `TypeError`). -/
def getStrArg (kvs : List (String × Json)) (p : String) : Option String :=
  match objLookup kvs p with
  | some (Json.str s) => some s
  | _ => none

/-- Invoke the underlying `MemoryStore` operation with validated
keyword arguments; unexpected keywords or non-text values where the
operation needs text become the caught-`TypeError` result string. -/
def invokeTool (st : Store) (name : String) (kvs : List (String × Json)) : String × Store :=
  if ¬ kvs.all (fun kv => (paramNames name).contains kv.1) then (runtimeErrorResult, st)
  else if name = "read_file" then
    match getStrArg kvs "filename" with
    | some fn => (memoryRead st fn, st)
    | none => (runtimeErrorResult, st)
  else if name = "write_file" then
    match getStrArg kvs "filename", getStrArg kvs "content" with
    | some fn, some ct => memoryWrite st fn ct
    | _, _ => (runtimeErrorResult, st)
  else if name = "list_files" then
    match objLookup kvs "pattern" with
    | none => (pyListRepr (listFiles st "*.md"), st)
    | some (Json.str pat) => (pyListRepr (listFiles st pat), st)
    | some _ => (runtimeErrorResult, st)
  else if name = "append_file" then
    match getStrArg kvs "filename", getStrArg kvs "content" with
    | some fn, some ct => memoryAppend st fn ct
    | _, _ => (runtimeErrorResult, st)
  else if name = "memorize_chapter_event" then
    match getStrArg kvs "chapter_title", getStrArg kvs "memory_summary" with
    | some t, some s => saveChapterMemory st t s
    | _, _ => (runtimeErrorResult, st)
  else if name = "memorize_important_fact" then
    match objLookup kvs "content" with
    | some v => updateGlobalMemory st (pyStr v)
    | none => (runtimeErrorResult, st)
  else if name = "get_writing_progress" then
    (getWritingProgress st, st)
  else (runtimeErrorResult, st)

/-- The generic missing-parameter result string. -/
def genericMissingMsg (missing : List String) : String :=
  "Error: Missing required parameters: " ++ joinComma missing

/-- The write_file-specific remediation message for a missing
`content` parameter (`agent/tools.py` line 178). -/
def writeFileContentMsg : String :=
  "Error: write_file tool was called without the 'content' parameter. You MUST provide the complete chapter text in the 'content' parameter. Please call write_file again with both 'filename' and 'content' parameters."

/-- The write_file-specific message for a missing `filename`. -/
def writeFileFilenameMsg : String :=
  "Error: write_file tool was called without the 'filename' parameter. Please provide the file path (e.g., 'drafts/chapter_21.md')."

/-- The result string returned when required parameters are missing,
with the write_file special cases checked first. -/
def missingMessage (name : String) (missing : List String) : String :=
  if name = "write_file" ∧ missing.contains "content" then writeFileContentMsg
  else if name = "write_file" ∧ missing.contains "filename" then writeFileFilenameMsg
  else genericMissingMsg missing

/-- `ToolRegistry.execute`: parse (with repair), validate required
parameters, dispatch; every failure mode is a result string and leaves
the store untouched. -/
def registryExecute (st : Store) (tc : ToolCallRec) : String × Store :=
  match parseArguments tc.arguments tc.name with
  | none => ("Error: Invalid tool arguments format. Please try again with proper JSON.", st)
  | some args =>
    if registeredNames.contains tc.name then
      match missingScan args (requiredParams tc.name) with
      | none => (runtimeErrorResult, st)
      | some missing =>
        if missing.isEmpty then
          match args with
          | Json.obj kvs => invokeTool st tc.name kvs
          | _ => (runtimeErrorResult, st)
        else (missingMessage tc.name missing, st)
    else ("Error: Tool " ++ tc.name ++ " not found.", st)

/-! ### `AgentLoop` — context window construction -/

/-- `AgentLoop._clean_content`: surrogate removal, the identity on the
well-formed strings of this embedding (with `None` already mapped to
`""` by `Response`). -/
def cleanContent (s : String) : String := s

/-- `AgentLoop.MAX_CONTEXT_MESSAGES`. -/
def maxContextMessages : Nat := 10

/-- The bulk-content tools whose payloads are replaced by placeholders
in the context window. -/
def contentToolNames : List String := ["write_file", "memorize_chapter_event"]

/-- The `file_paths` summary built for a bulk-content assistant
message: parse each bulk tool call's arguments and keep `filename`
(resp. `memory: chapter_title`); parse failures are skipped
(`except: pass`). -/
def savedPathsOf (tcs : List ToolCallRec) : List String :=
  tcs.filterMap (fun tc =>
    if tc.name = "write_file" ∨ tc.name = "memorize_chapter_event" then
      match jsonParse tc.arguments with
      | some (Json.obj kvs) =>
        if tc.name = "write_file" then
          some (pyStr ((objLookup kvs "filename").getD (Json.str "unknown")))
        else
          some ("memory: " ++ pyStr ((objLookup kvs "chapter_title").getD (Json.str "unknown")))
      | _ => none
    else none)

/-- The filter-and-compact fold of `_build_context_messages` (lines
117-196 of `agent/loop.py`); the Bool is `skip_next_tools`. -/
def compactHistory : List Msg → Bool → List Msg
  | [], _ => []
  | m :: rest, skipNextTools =>
    match m.role with
    | Role.system => compactHistory rest skipNextTools
    | Role.assistant =>
      if ¬ m.toolCalls.isEmpty then
        if m.toolCalls.any (fun tc => contentToolNames.contains tc.name) then
          { role := Role.assistant,
            content := "[Saved content to: " ++ joinComma (savedPathsOf m.toolCalls) ++ "]" }
            :: compactHistory rest true
        else
          { role := Role.assistant,
            content := "[Using tools: " ++ joinComma (m.toolCalls.map (·.name)) ++ "]" }
            :: compactHistory rest skipNextTools
      else m :: compactHistory rest false
    | Role.tool =>
      (if skipNextTools then
        (if strStarts m.content "Error:" then
          { role := Role.assistant, content := "[write_file failed]" }
         else { role := Role.assistant, content := "[write_file completed successfully]" })
       else
        (if strStarts m.content "Error:" then
          { role := Role.assistant, content := "[Tool error occurred]" }
         else { role := Role.assistant, content := "[Tool executed successfully]" }))
        :: compactHistory rest skipNextTools
    | Role.user => m :: compactHistory rest false

/-- `AgentLoop._build_context_messages`: system prompt, optional
omission notice, then the last `maxCtx` compacted messages. -/
def buildContextMessages (sysPrompt : String) (history : List Msg) (maxCtx : Nat) : List Msg :=
  let compacted := compactHistory history false
  let contextMsgs := compacted.drop (compacted.length - maxCtx)
  let omitted : List Msg :=
    if compacted.length > maxCtx then
      [{ role := Role.system,
         content := "[Previous " ++ toString (compacted.length - contextMsgs.length)
           ++ " turns omitted. Key info in memory.]" }]
    else []
  ({ role := Role.system, content := cleanContent sysPrompt } :: omitted) ++ contextMsgs

/-! ### `AgentLoop.process_turn` — the tool round-trip state machine

The LLM backend is abstracted as a stream `seq : Nat → Response` of
responses to the tools-offered calls, in call order, plus a separate
response for the single no-tools call; the observable actions of a turn
are recorded as an event trace. -/

inductive Event
  | appendHist (m : Msg)
  | saveSession
  | modelCall (toolsOffered : Bool)
  | retryCall
  | warnRaw
  | surface (content : String)
deriving DecidableEq

structure LoopState where
  history : List Msg
  messages : List Msg
  store : Store
  persisted : List Msg
  events : List Event
deriving DecidableEq

/-- `self.history.append(m)` (with its event). -/
def appendHistory (st : LoopState) (m : Msg) : LoopState :=
  { st with history := st.history ++ [m], events := st.events ++ [Event.appendHist m] }

/-- `messages.append(m)` — the ephemeral context list, not History. -/
def appendMessages (st : LoopState) (m : Msg) : LoopState :=
  { st with messages := st.messages ++ [m] }

/-- `AgentLoop._save_session`: serialize the full History to the
session record. -/
def saveSessionStep (st : LoopState) : LoopState :=
  { st with persisted := st.history, events := st.events ++ [Event.saveSession] }

def recordEvent (st : LoopState) (e : Event) : LoopState :=
  { st with events := st.events ++ [e] }

/-- The assistant message carrying a response's tool calls (content
`None` is already `""`). -/
def toolCallMsgOf (r : Response) : Msg :=
  { role := Role.assistant, content := r.content, toolCalls := r.toolCalls }

/-- Python `self.history[-10:]`. -/
def lastTen (l : List Msg) : List Msg :=
  l.drop (l.length - 10)

/-- The count of recent missing-content tool errors watched by the
correction trigger (`agent/loop.py` lines 271-275). -/
def recentMissingContentErrors (history : List Msg) : Nat :=
  ((lastTen history).filter (fun m =>
    m.role == Role.tool && strContains m.content "Missing required parameters: content")).length

/-- The corrective system message injected on repeated missing-content
errors (`agent/loop.py` lines 278-281). -/
def missingContentCorrection : Msg :=
  { role := Role.system,
    content := "CRITICAL: You have called write_file multiple times without providing the 'content' parameter. STOP and think: You must provide the COMPLETE text content in the 'content' parameter. Do not call write_file until you have the full content ready." }

/-- Process one tool call inside the main while loop (`agent/loop.py`
lines 265-292): execute, maybe inject the correction, then append the
tool-result message to messages and History. -/
def toolCallStep (st : LoopState) (tc : ToolCallRec) : LoopState :=
  let result := (registryExecute st.store tc).1
  let st1 := { st with store := (registryExecute st.store tc).2 }
  let st2 :=
    if strContains result "Error: Missing required parameters: content" &&
        decide (2 ≤ recentMissingContentErrors st1.history) then
      appendHistory (appendMessages st1 missingContentCorrection) missingContentCorrection
    else st1
  let toolMsg : Msg :=
    { role := Role.tool, content := cleanContent result, toolCallId := some tc.id }
  appendMessages (appendHistory st2 toolMsg) toolMsg

/-- One iteration body of the while loop: append the assistant
tool-call message, execute each call in issue order. -/
def toolRound (st : LoopState) (r : Response) : LoopState :=
  let m := toolCallMsgOf r
  let st1 := appendMessages (appendHistory st m) m
  r.toolCalls.foldl toolCallStep st1

/-- `MAX_LOOPS`. -/
def maxLoops : Nat := 10

/-- Outcome of the while loop of `process_turn`: final state, the
response that ended the loop, the index of the next backend response,
and the number of iterations run. -/
structure MainLoopResult where
  state : LoopState
  current : Response
  nextIdx : Nat
  rounds : Nat

/-- The while loop of `process_turn` (`while current_response.tool_calls
and loop_count < MAX_LOOPS`), with `fuel = MAX_LOOPS - loop_count`;
`i` indexes the next backend response. -/
def mainLoop (seq : Nat → Response) :
    Nat → Nat → Response → LoopState → MainLoopResult
  | 0, i, cur, st => ⟨st, cur, i, 0⟩
  | fuel + 1, i, cur, st =>
    if cur.toolCalls.isEmpty then ⟨st, cur, i, 0⟩
    else
      let st1 := toolRound st cur
      let st2 := recordEvent st1 (Event.modelCall true)
      let r := mainLoop seq fuel (i + 1) (seq i) st2
      ⟨r.state, r.current, r.nextIdx, r.rounds + 1⟩

/-- Process one tool call of the final pending batch after the round
limit (`agent/loop.py` lines 319-329) — no correction check here. -/
def finalBatchStep (st : LoopState) (tc : ToolCallRec) : LoopState :=
  let toolMsg : Msg :=
    { role := Role.tool, content := cleanContent (registryExecute st.store tc).1,
      toolCallId := some tc.id }
  appendMessages (appendHistory { st with store := (registryExecute st.store tc).2 } toolMsg)
    toolMsg

/-! ### `AgentLoop._handle_final_response` -/

/-- `AgentLoop.TOOL_CALL_PATTERNS`. -/
def fakeToolCallPatterns : List String := ["tool_call"]

/-- `AgentLoop._detect_fake_tool_calls`. -/
def detectFakeToolCalls (content : String) : Bool :=
  if content = "" then false
  else fakeToolCallPatterns.any (fun p => strContains (strToLower content) (strToLower p))

/-- The one-shot corrective instruction of `_handle_final_response`. -/
def fakeToolCallCorrection : Msg :=
  { role := Role.system,
    content := "IMPORTANT: You just output tool calls as text instead of using the actual tool system. When you want to use a tool, you must NOT output text like 'Using Tool: xxx' or 'minimax:tool_call'. Instead, you should use the tool_calls mechanism provided by the API. Please try again and use the proper tool format." }

/-- `AgentLoop._handle_final_response`: on a fake tool call, append the
offending text, rebuild the context with the corrective instruction,
retry, warn if the retry still matches — and recurse on the corrected
response.  The source recursion has no depth counter, so `fuel` is the
truncation depth of this embedding: at `0` with detection still firing,
the source would recurse again. -/
def handleFinalResponse (sysPrompt : String) (seq : Nat → Response) :
    Nat → Nat → Response → LoopState → (LoopState × Nat)
  | fuel, i, resp, st =>
    let content := cleanContent resp.content
    if detectFakeToolCalls content then
      match fuel with
      | 0 => (st, i)
      | fuel' + 1 =>
        let st1 := appendHistory st { role := Role.assistant, content := content }
        let st2 := { st1 with
          messages := buildContextMessages sysPrompt st1.history maxContextMessages
            ++ [fakeToolCallCorrection] }
        let st3 := recordEvent st2 Event.retryCall
        let corrected := seq i
        let st4 :=
          if detectFakeToolCalls corrected.content then recordEvent st3 Event.warnRaw else st3
        handleFinalResponse sysPrompt seq fuel' (i + 1) corrected st4
    else
      if content ≠ "" then
        (recordEvent (appendHistory st { role := Role.assistant, content := content })
          (Event.surface content), i)
      else (st, i)

/-! ### `AgentLoop.process_turn` and one `start`-loop iteration -/

structure TurnResult where
  state : LoopState
  rounds : Nat
  finalBatchRun : Bool
  forcedFinalCall : Bool
  finalResponse : Response
deriving DecidableEq

/-- Steps 1-3 of `process_turn`: append the user message to History,
build the context window, and make the first model call with tools
offered. -/
def turnStart (sysPrompt : String) (userInput : String) (st0 : LoopState) : LoopState :=
  let st1 := appendHistory st0 { role := Role.user, content := cleanContent userInput }
  let st2 := { st1 with messages := buildContextMessages sysPrompt st1.history maxContextMessages }
  recordEvent st2 (Event.modelCall true)

/-- `AgentLoop.process_turn`: append the user message, build the
context, run the tool loop; if the round limit was hit with tools still
requested, execute that batch once and make the single no-tools call
(`noToolsResp` is its response); finally handle the terminal
response. -/
def processTurn (sysPrompt : String) (seq : Nat → Response) (noToolsResp : Response)
    (hfFuel : Nat) (userInput : String) (st0 : LoopState) : TurnResult :=
  let r := mainLoop seq maxLoops 1 (seq 0) (turnStart sysPrompt userInput st0)
  if ¬ r.current.toolCalls.isEmpty then
    let m := toolCallMsgOf r.current
    let st5 := appendMessages (appendHistory r.state m) m
    let st6 := r.current.toolCalls.foldl finalBatchStep st5
    let st7 := recordEvent st6 (Event.modelCall false)
    { state := (handleFinalResponse sysPrompt seq hfFuel r.nextIdx noToolsResp st7).1,
      rounds := r.rounds, finalBatchRun := true, forcedFinalCall := true,
      finalResponse := noToolsResp }
  else
    { state := (handleFinalResponse sysPrompt seq hfFuel r.nextIdx r.current r.state).1,
      rounds := r.rounds, finalBatchRun := false, forcedFinalCall := false,
      finalResponse := r.current }

/-- One iteration of the interactive loop in `AgentLoop.start`: process
the turn, then save the session — the only save on the path. -/
def startIteration (sysPrompt : String) (seq : Nat → Response) (noToolsResp : Response)
    (hfFuel : Nat) (userInput : String) (st0 : LoopState) : LoopState :=
  saveSessionStep (processTurn sysPrompt seq noToolsResp hfFuel userInput st0).state

/-! ### `AgentLoop._load_session` — resume selection over session files -/

/-- Parsed content of one session record (`{session_id, timestamp,
history}`; the timestamp plays no role in selection). -/
structure SessionData where
  session_id : String
  history : List Msg
deriving DecidableEq

/-- One file of the `memory/sessions` directory: its name, its
modification time, and its parsed content. -/
structure SessionFile where
  name : String
  mtime : Nat
  data : SessionData
deriving DecidableEq

/-- The glob `session_*.json` used to enumerate session records. -/
def isSessionFileName (n : String) : Bool :=
  strGlob "session_*.json" n

/-- `sorted(session_files)[-1]`: the record whose name is
lexicographically greatest (ties keep the later list entry, as a
stable ascending sort would). -/
def lastByName : List SessionFile → Option SessionFile
  | [] => none
  | f :: t =>
    match lastByName t with
    | none => some f
    | some g => if strLtB g.name f.name then some f else some g

/-- `AgentLoop._load_session` with no explicit session id: pick the
name-wise last `session_*.json` file and restore its `session_id` and
`history`; with no record, keep the freshly generated id and the empty
history. -/
def loadSession (files : List SessionFile) (defaultId : String) : String × List Msg :=
  match lastByName (files.filter (fun f => isSessionFileName f.name)) with
  | some latest => (latest.data.session_id, latest.data.history)
  | none => (defaultId, [])

/-- Auxiliary (sync-mode) session records: `SyncRunner` ids carry the
`_sync` suffix, so their files end in `_sync.json`. -/
def isAuxSessionName (n : String) : Bool :=
  strEnds n "_sync.json"

/-- The resume target according to the specification's words: the most
recently modified session record that is not auxiliary.  This is the
claim-side selector compared against `loadSession`. -/
def specResumeTarget (files : List SessionFile) : Option SessionFile :=
  (files.filter (fun f => isSessionFileName f.name && ! isAuxSessionName f.name)).foldl
    (fun acc f =>
      match acc with
      | none => some f
      | some g => if g.mtime < f.mtime then some f else some g)
    none

/-! ### Sync consistency check — chapter/memory set differences

Shared by `SyncRunner._build_sync_prompt` (`agent/sync_runner.py` lines
107-145) and `AgentLoop._build_sync_prompt` (`agent/loop.py` lines
506-541); both compute the same sets. -/

/-- Leftmost match of the regex `chapter_(\d+)` in a file name: the
numeric value of the maximal digit run after the first `chapter_`
occurrence that is followed by a digit. -/
def extractChapterNum (name : String) : Option Nat :=
  go name.toList
where
  go : List Char → Option Nat
    | [] => none
    | c :: t =>
      if ['c', 'h', 'a', 'p', 't', 'e', 'r', '_'].isPrefixOf (c :: t) then
        match (c :: t).drop 8 with
        | d :: after =>
          if d.isDigit then
            some (natOfDigits (String.mk ((d :: after).takeWhile Char.isDigit)))
          else go t
        | [] => go t
      else go t

/-- The draft files the sync check counts: `drafts/chapter_*.md`
containing a `chapter_<digits>` group. -/
def syncDraftFiles (st : Store) : List String :=
  sortStrings ((childNames st "drafts").filter
    (fun n => strGlob "chapter_*.md" n && (extractChapterNum n).isSome))

/-- The chapter-memory files the sync check counts:
`memory/chapters/*.md` containing a `chapter_<digits>` group. -/
def syncMemoryFiles (st : Store) : List String :=
  sortStrings ((childNames st "memory/chapters").filter
    (fun n => strGlob "*.md" n && (extractChapterNum n).isSome))

/-- `chapter_nums`: the set of chapter numbers with a draft. -/
def chapterNums (st : Store) : Finset Nat :=
  ((syncDraftFiles st).map (fun n => (extractChapterNum n).getD 0)).toFinset

/-- `memory_nums`: the set of chapter numbers with a memory entry. -/
def memoryNums (st : Store) : Finset Nat :=
  ((syncMemoryFiles st).map (fun n => (extractChapterNum n).getD 0)).toFinset

/-- `missing_memories = chapter_nums - memory_nums`. -/
def missingMemories (st : Store) : Finset Nat :=
  chapterNums st \ memoryNums st

/-- `orphan_memories = memory_nums - chapter_nums`. -/
def orphanMemories (st : Store) : Finset Nat :=
  memoryNums st \ chapterNums st

/-! ### Trace predicates and the pairing invariant -/

/-- The pairing invariant on a context window: every tool-result
message has a matching assistant tool call in the window, and every
assistant tool call has a matching tool-result message. -/
def pairingInvariant (w : List Msg) : Prop :=
  (∀ m ∈ w, m.role = Role.tool →
    ∃ a ∈ w, a.role = Role.assistant ∧ ∃ tc ∈ a.toolCalls, m.toolCallId = some tc.id) ∧
  (∀ a ∈ w, a.role = Role.assistant → ∀ tc ∈ a.toolCalls,
    ∃ m ∈ w, m.role = Role.tool ∧ m.toolCallId = some tc.id)

def isSaveEvent : Event → Bool
  | Event.saveSession => true
  | _ => false

/-- Number of session saves recorded in a trace. -/
def savesIn (evs : List Event) : Nat :=
  (evs.filter isSaveEvent).length

/-- Does the trace persist the History after every append, before the
next append?  The Bool argument is "an append is pending un-saved";
model calls and warnings are not state-changing. -/
def persistedAfterEveryAppend : List Event → Bool → Bool
  | [], pending => !pending
  | Event.appendHist _ :: r, pending => !pending && persistedAfterEveryAppend r true
  | Event.saveSession :: r, _ => persistedAfterEveryAppend r false
  | _ :: r, pending => persistedAfterEveryAppend r pending

/-- Number of corrective retries recorded in a trace. -/
def retriesIn (evs : List Event) : Nat :=
  (evs.filter (fun e => e == Event.retryCall)).length

/-- Number of surfaced final answers recorded in a trace. -/
def surfacesIn (evs : List Event) : Nat :=
  (evs.filter (fun e => match e with | Event.surface _ => true | _ => false)).length

/-! ## Supporting lemmas -/

theorem mem_of_stripSpaces {c : Char} {l : List Char} (h : c ∈ stripSpaces l) : c ∈ l := by
  unfold stripSpaces at h
  rw [List.mem_reverse] at h
  have h1 := (List.dropWhile_sublist (· = ' ')).mem h
  rw [List.mem_reverse] at h1
  exact (List.dropWhile_sublist (· = ' ')).mem h1

theorem sanitizeTitle_chars (t : String) :
    ∀ c ∈ (sanitizeTitle t).toList, (c.isAlphanum || c = '-' || c = '_') = true := by
  intro c hc
  have hc' : c ∈ (stripSpaces (t.toList.filter keepChar)).map
      (fun c => if c = ' ' then '_' else c) := hc
  obtain ⟨c0, hc0, hmap⟩ := List.mem_map.mp hc'
  have h1 : c0 ∈ t.toList.filter keepChar := mem_of_stripSpaces hc0
  have h2 : keepChar c0 = true := (List.mem_filter.mp h1).2
  by_cases hsp : c0 = ' '
  · rw [← hmap, if_pos hsp]; rfl
  · rw [← hmap, if_neg hsp]
    unfold keepChar at h2
    simp only [Bool.or_eq_true] at h2 ⊢
    rcases h2 with ((h | h) | h) | h
    · exact Or.inl (Or.inl h)
    · exact absurd (by simpa using h) hsp
    · exact Or.inl (Or.inr h)
    · exact Or.inr h

theorem strToList_append (a b : String) : (a ++ b).toList = a.toList ++ b.toList := rfl

theorem strContains_of_toList_decomp (hay nd : String) (a b : List Char)
    (h : hay.toList = a ++ nd.toList ++ b) : strContains hay nd = true := by
  unfold strContains
  rw [h]
  exact listHasSub_append a nd.toList b

theorem strContains_head_joinComma (pre p : String) (rest : List String) :
    strContains (pre ++ joinComma (p :: rest)) p = true := by
  cases rest with
  | nil =>
    apply strContains_of_toList_decomp _ _ pre.toList []
    simp [joinComma, strToList_append]
  | cons q t =>
    apply strContains_of_toList_decomp _ _ pre.toList
      ((", " : String).toList ++ (joinComma (q :: t)).toList)
    simp [joinComma, strToList_append, List.append_assoc]

theorem charEq_of_not_ltB (a b : Char) (h1 : charLtB a b = false) (h2 : charLtB b a = false) :
    a = b := by
  simp only [charLtB, decide_eq_false_iff_not, not_lt] at h1 h2
  exact Char.eq_of_val_eq (UInt32.toNat.inj (le_antisymm h2 h1))

theorem charListLtB_irrefl : ∀ l, charListLtB l l = false := by
  intro l
  induction l with
  | nil => rfl
  | cons a as ih =>
    have ha : charLtB a a = false := by simp [charLtB]
    simp [charListLtB, ha, ih]

theorem charListLtB_trans :
    ∀ a b c, charListLtB a b = true → charListLtB b c = true → charListLtB a c = true := by
  intro a
  induction a with
  | nil =>
    intro b c hab hbc
    cases c with
    | nil =>
      cases b with
      | nil => exact hbc
      | cons b0 bs => simp [charListLtB] at hbc
    | cons c0 cs => rfl
  | cons a0 as ih =>
    intro b c hab hbc
    cases b with
    | nil => simp [charListLtB] at hab
    | cons b0 bs =>
      cases c with
      | nil => simp [charListLtB] at hbc
      | cons c0 cs =>
        simp only [charListLtB] at hab hbc ⊢
        by_cases p1 : charLtB a0 b0 = true
        · by_cases p2 : charLtB b0 c0 = true
          · have h : charLtB a0 c0 = true := by
              simp only [charLtB, decide_eq_true_eq] at p1 p2 ⊢
              omega
            simp [h]
          · rw [Bool.not_eq_true] at p2
            by_cases q2 : charLtB c0 b0 = true
            · simp [p2, q2] at hbc
            · rw [Bool.not_eq_true] at q2
              have hbc0 : b0 = c0 := charEq_of_not_ltB _ _ p2 q2
              rw [← hbc0]
              simp [p1]
        · rw [Bool.not_eq_true] at p1
          by_cases q1 : charLtB b0 a0 = true
          · simp [p1, q1] at hab
          · rw [Bool.not_eq_true] at q1
            have hab0 : a0 = b0 := charEq_of_not_ltB _ _ p1 q1
            have habs : charListLtB as bs = true := by simpa [p1, q1] using hab
            by_cases p2 : charLtB b0 c0 = true
            · rw [hab0]
              simp [p2]
            · rw [Bool.not_eq_true] at p2
              by_cases q2 : charLtB c0 b0 = true
              · simp [p2, q2] at hbc
              · rw [Bool.not_eq_true] at q2
                have hbc0 : b0 = c0 := charEq_of_not_ltB _ _ p2 q2
                have hbcs : charListLtB bs cs = true := by simpa [p2, q2] using hbc
                have h3 : charLtB a0 c0 = false := by rw [hab0, hbc0]; simp [charLtB]
                have h4 : charLtB c0 a0 = false := by rw [hab0, hbc0]; simp [charLtB]
                simp [h3, h4]
                exact ih bs cs habs hbcs

theorem charListLtB_asymm (a b : List Char) (h : charListLtB a b = true) :
    charListLtB b a = false := by
  by_cases h2 : charListLtB b a = true
  · have := charListLtB_trans a b a h h2
    rw [charListLtB_irrefl] at this
    exact absurd this (by simp)
  · rwa [Bool.not_eq_true] at h2

theorem charListLtB_conn :
    ∀ a b, charListLtB a b = false → charListLtB b a = false → a = b := by
  intro a
  induction a with
  | nil =>
    intro b hab _
    cases b with
    | nil => rfl
    | cons b0 bs => simp [charListLtB] at hab
  | cons a0 as ih =>
    intro b hab hba
    cases b with
    | nil => simp [charListLtB] at hba
    | cons b0 bs =>
      simp only [charListLtB] at hab hba
      by_cases p1 : charLtB a0 b0 = true
      · simp [p1] at hab
      · rw [Bool.not_eq_true] at p1
        by_cases q1 : charLtB b0 a0 = true
        · simp [q1] at hba
        · rw [Bool.not_eq_true] at q1
          have h0 : a0 = b0 := charEq_of_not_ltB _ _ p1 q1
          have h1 : charListLtB as bs = false := by simpa [p1, q1] using hab
          have h2 : charListLtB bs as = false := by simpa [p1, q1] using hba
          rw [h0, ih bs h1 h2]

/-- If `g` is not below `f` and `g` is below `h`, then `h` is not below
`f` — the step that keeps the running maximum correct. -/
theorem strLtB_max_step {g f h : String} (hgf : strLtB g f = false)
    (hgh : strLtB g h = true) : strLtB h f = false := by
  unfold strLtB at hgf hgh ⊢
  by_cases hhf : charListLtB h.toList f.toList = true
  · by_cases hfg : charListLtB f.toList g.toList = true
    · have := charListLtB_trans _ _ _ hhf hfg
      have h2 := charListLtB_asymm _ _ hgh
      rw [h2] at this
      exact absurd this (by simp)
    · rw [Bool.not_eq_true] at hfg
      have : f.toList = g.toList := charListLtB_conn _ _ hfg hgf
      rw [this] at hhf
      have h2 := charListLtB_asymm _ _ hgh
      rw [h2] at hhf
      exact absurd hhf (by simp)
  · rwa [Bool.not_eq_true] at hhf

theorem strLtB_irrefl (s : String) : strLtB s s = false :=
  charListLtB_irrefl s.toList

theorem lastByName_eq_none_iff (l : List SessionFile) :
    lastByName l = none ↔ l = [] := by
  cases l with
  | nil => simp [lastByName]
  | cons f t =>
    cases hlt : lastByName t with
    | none => rw [lastByName, hlt]; simp
    | some g =>
      rw [lastByName, hlt]
      dsimp only
      split <;> simp

theorem lastByName_mem_max :
    ∀ (l : List SessionFile) (m : SessionFile), lastByName l = some m →
      m ∈ l ∧ ∀ f ∈ l, strLtB m.name f.name = false := by
  intro l
  induction l with
  | nil => intro m hm; simp [lastByName] at hm
  | cons h t ih =>
    intro m hm
    rw [lastByName] at hm
    cases hlt : lastByName t with
    | none =>
      rw [hlt] at hm
      have ht : t = [] := (lastByName_eq_none_iff t).mp hlt
      subst ht
      simp only [Option.some.injEq] at hm
      subst hm
      refine ⟨List.mem_singleton_self _, ?_⟩
      intro f hf
      rw [List.mem_singleton] at hf
      subst hf
      exact strLtB_irrefl _
    | some g =>
      rw [hlt] at hm
      dsimp only at hm
      obtain ⟨hgmem, hgmax⟩ := ih g hlt
      by_cases hc : strLtB g.name h.name = true
      · simp only [hc, if_true] at hm
        simp only [Option.some.injEq] at hm
        subst hm
        refine ⟨List.mem_cons_self _ _, ?_⟩
        intro f hf
        rcases List.mem_cons.mp hf with hfh | hft
        · subst hfh
          exact strLtB_irrefl _
        · exact strLtB_max_step (hgmax f hft) hc
      · have hcf : strLtB g.name h.name = false := by simpa using hc
        simp only [hcf, Bool.false_eq_true, if_false] at hm
        simp only [Option.some.injEq] at hm
        subst hm
        refine ⟨List.mem_cons_of_mem _ hgmem, ?_⟩
        intro f hf
        rcases List.mem_cons.mp hf with hfh | hft
        · subst hfh; exact hcf
        · exact hgmax f hft

/-! ## Claims -/

/-- C8.  For every raw argument string that is already valid JSON,
`parse_arguments` returns exactly the value produced by direct JSON
parsing: the repair and fallback-extraction stages are a no-op on
well-formed input. -/
theorem parseArguments_noop_on_valid_json (raw toolName : String) (v : Json)
    (h : jsonParse raw = some v) :
    parseArguments raw toolName = some v := by
  unfold parseArguments
  rw [h]

def c8Val : Json :=
  Json.obj [("filename", Json.str "drafts/chapter_01.md"), ("content", Json.str "Once upon a time")]

def c8Raw : String :=
  "\x7b\"filename\": \"drafts/chapter_01.md\", \"content\": \"Once upon a time\"\x7d"

/-- Witness for C8 at a concrete well-formed argument string. -/
theorem parseArguments_noop_on_valid_json_witness :
    jsonParse c8Raw = some c8Val ∧ parseArguments c8Raw "write_file" = some c8Val :=
  ⟨rfl, parseArguments_noop_on_valid_json c8Raw "write_file" c8Val rfl⟩

/-- C10.  Saving a chapter memory writes to a path built from the
sanitized title — only alphanumerics, hyphens and underscores survive,
so the file always lies directly inside `memory/chapters/` (no path
separators, no dots) — and reading back the same title returns the
saved summary. -/
theorem chapter_memory_sanitized_roundtrip (title summary : String) (st : Store) :
    (∃ name,
      (∀ c ∈ name.toList, (c.isAlphanum || c = '-' || c = '_') = true) ∧
      (saveChapterMemory st title summary).2 =
        storeWrite st ("memory/chapters/" ++ name ++ ".md") summary) ∧
    readChapterMemory (saveChapterMemory st title summary).2 title = summary := by
  constructor
  · exact ⟨sanitizeTitle title, sanitizeTitle_chars title, rfl⟩
  · unfold readChapterMemory saveChapterMemory memoryRead
    rw [lookupStore_write_self]
    rfl

def c9Store1 : Store :=
  [("drafts/chapter_01.md", "d1"), ("drafts/chapter_02.md", "d2"), ("drafts/chapter_03.md", "d3"),
   ("memory/chapters/chapter_01.md", "m1"), ("memory/chapters/chapter_02.md", "m2")]

def c9Store2 : Store :=
  [("drafts/chapter_01.md", "d1"), ("drafts/chapter_02.md", "d2"), ("drafts/chapter_03.md", "d3"),
   ("memory/chapters/chapter_01.md", "m1"), ("memory/chapters/chapter_02.md", "m2"),
   ("memory/chapters/chapter_03.md", "m3"), ("memory/chapters/chapter_04.md", "m4")]

/-- C9.  The sync check reports exactly the set difference of draft
chapter numbers and memory chapter numbers in each direction; in
particular drafts `{1,2,3}` with memories `{1,2}` give missing `{3}`
and no orphans, and memories `{1,2,3,4}` with drafts `{1,2,3}` give
orphan `{4}` and nothing missing. -/
theorem syncCheck_reports_set_differences :
    (∀ st : Store, ∀ k : Nat,
      (k ∈ missingMemories st ↔
        (∃ n ∈ syncDraftFiles st, (extractChapterNum n).getD 0 = k) ∧
        ¬ (∃ n ∈ syncMemoryFiles st, (extractChapterNum n).getD 0 = k)) ∧
      (k ∈ orphanMemories st ↔
        (∃ n ∈ syncMemoryFiles st, (extractChapterNum n).getD 0 = k) ∧
        ¬ (∃ n ∈ syncDraftFiles st, (extractChapterNum n).getD 0 = k))) ∧
    missingMemories c9Store1 = {3} ∧ orphanMemories c9Store1 = ∅ ∧
    missingMemories c9Store2 = ∅ ∧ orphanMemories c9Store2 = {4} := by
  refine ⟨?_, by decide, by decide, by decide, by decide⟩
  intro st k
  constructor
  · rw [missingMemories, Finset.mem_sdiff, chapterNums, memoryNums]
    simp [List.mem_toFinset, List.mem_map]
  · rw [orphanMemories, Finset.mem_sdiff, chapterNums, memoryNums]
    simp [List.mem_toFinset, List.mem_map]

def c4FileA : SessionFile :=
  ⟨"session_20240101_100000.json", 200,
    ⟨"20240101_100000", [⟨Role.user, "hello", [], none⟩]⟩⟩

def c4FileB : SessionFile :=
  ⟨"session_20240101_120000_sync.json", 100, ⟨"20240101_120000_sync", []⟩⟩

/-- C4 counterexample.  With a non-auxiliary record modified at time
200 and a sync record (auxiliary, name lexicographically later)
modified at time 100, `_load_session` loads the sync record — not the
most recently modified non-auxiliary record the claim requires. -/
theorem loadSession_not_most_recent_nonaux :
    specResumeTarget [c4FileA, c4FileB] = some c4FileA ∧
    loadSession [c4FileA, c4FileB] "fresh" = ("20240101_120000_sync", []) ∧
    loadSession [c4FileA, c4FileB] "fresh" ≠ (c4FileA.data.session_id, c4FileA.data.history) := by
  refine ⟨by decide, by decide, ?_⟩
  intro h
  exact absurd (congrArg Prod.fst h) (by decide)

/-- C4 amended.  On construction with no explicit session id, if any
`session_*.json` record exists, the Controller loads the record whose
file name is lexicographically greatest — auxiliary sync records are
not excluded and modification times are not consulted — and restores
its `session_id` and History identically. -/
theorem loadSession_picks_last_name (files : List SessionFile) (defaultId : String)
    (h : ∃ f ∈ files, isSessionFileName f.name = true) :
    ∃ m ∈ files, isSessionFileName m.name = true ∧
      (∀ f ∈ files, isSessionFileName f.name = true → strLtB m.name f.name = false) ∧
      loadSession files defaultId = (m.data.session_id, m.data.history) := by
  obtain ⟨f, hf, hfn⟩ := h
  have hmemf : f ∈ files.filter (fun g => isSessionFileName g.name) :=
    List.mem_filter.mpr ⟨hf, hfn⟩
  have hne : files.filter (fun g => isSessionFileName g.name) ≠ [] :=
    List.ne_nil_of_mem hmemf
  cases hlast : lastByName (files.filter (fun g => isSessionFileName g.name)) with
  | none => exact absurd ((lastByName_eq_none_iff _).mp hlast) hne
  | some m =>
    obtain ⟨hmem, hmax⟩ := lastByName_mem_max _ m hlast
    refine ⟨m, (List.mem_filter.mp hmem).1, (List.mem_filter.mp hmem).2, ?_, ?_⟩
    · intro g hg hgn
      exact hmax g (List.mem_filter.mpr ⟨hg, hgn⟩)
    · unfold loadSession
      rw [hlast]

/-- Witness for the amended C4 on the two-record store: the sync-named
record wins by name order. -/
theorem loadSession_picks_last_name_witness :
    ∃ m ∈ [c4FileA, c4FileB], isSessionFileName m.name = true ∧
      (∀ f ∈ [c4FileA, c4FileB], isSessionFileName f.name = true →
        strLtB m.name f.name = false) ∧
      loadSession [c4FileA, c4FileB] "fresh" = (m.data.session_id, m.data.history) :=
  loadSession_picks_last_name [c4FileA, c4FileB] "fresh" ⟨c4FileA, by decide, by decide⟩

theorem compactHistory_members (hist : List Msg) :
    ∀ skip, ∀ m ∈ compactHistory hist skip,
      m.role ≠ Role.tool ∧ (m.role = Role.assistant → m.toolCalls = []) := by
  induction hist with
  | nil => intro skip m hm; simp [compactHistory] at hm
  | cons h t ih =>
    intro skip m hm
    obtain ⟨hrole, hcontent, htc, hid⟩ := h
    cases hrole with
    | system => exact ih skip m hm
    | user =>
      simp only [compactHistory] at hm
      rcases List.mem_cons.mp hm with hmh | hmt
      · subst hmh; exact ⟨by simp, by simp⟩
      · exact ih false m hmt
    | tool =>
      simp only [compactHistory] at hm
      rcases List.mem_cons.mp hm with hmh | hmt
      · subst hmh
        constructor
        · split <;> split <;> simp
        · split <;> split <;> simp
      · exact ih skip m hmt
    | assistant =>
      simp only [compactHistory] at hm
      by_cases hne : (⟨Role.assistant, hcontent, htc, hid⟩ : Msg).toolCalls.isEmpty
      · rw [if_neg (by simpa using hne)] at hm
        rcases List.mem_cons.mp hm with hmh | hmt
        · subst hmh
          refine ⟨by simp, fun _ => ?_⟩
          simpa using List.isEmpty_iff.mp hne
        · exact ih false m hmt
      · rw [if_pos (by simpa using hne)] at hm
        by_cases hct : (⟨Role.assistant, hcontent, htc, hid⟩ : Msg).toolCalls.any
            (fun tc => contentToolNames.contains tc.name)
        · rw [if_pos hct] at hm
          rcases List.mem_cons.mp hm with hmh | hmt
          · subst hmh; exact ⟨by simp, by simp⟩
          · exact ih true m hmt
        · rw [if_neg hct] at hm
          rcases List.mem_cons.mp hm with hmh | hmt
          · subst hmh; exact ⟨by simp, by simp⟩
          · exact ih skip m hmt

theorem buildContext_members (sysPrompt : String) (history : List Msg) (maxCtx : Nat) :
    ∀ m ∈ buildContextMessages sysPrompt history maxCtx,
      m.role ≠ Role.tool ∧ (m.role = Role.assistant → m.toolCalls = []) := by
  intro m hm
  unfold buildContextMessages at hm
  rcases List.mem_append.mp hm with hl | hr
  · rcases List.mem_cons.mp hl with hsys | homit
    · subst hsys; exact ⟨by simp, by simp⟩
    · split at homit
      · rcases List.mem_singleton.mp homit with h
        subst h; exact ⟨by simp, by simp⟩
      · simp at homit
  · exact compactHistory_members history false m (List.mem_of_mem_drop hr)

/-- C1.  For every history and every truncation point, the context
window built by `_build_context_messages` satisfies the pairing
invariant: every tool-result message present has its paired assistant
tool-call present and vice versa.  It holds because compaction replaces
every tool-call/tool-result pair by plain assistant placeholders, so
the window carries no tool traffic at all — a pair is compacted or
dropped together, never split. -/
theorem buildContext_pairing_invariant (sysPrompt : String) (history : List Msg)
    (maxCtx : Nat) :
    pairingInvariant (buildContextMessages sysPrompt history maxCtx) := by
  constructor
  · intro m hm hrole
    exact absurd hrole (buildContext_members sysPrompt history maxCtx m hm).1
  · intro a ha hrole tc htc
    rw [(buildContext_members sysPrompt history maxCtx a ha).2 hrole] at htc
    simp at htc

theorem mainLoop_all_tools (seq : Nat → Response) (hseq : ∀ i, (seq i).toolCalls ≠ []) :
    ∀ fuel i cur st, cur.toolCalls ≠ [] →
      (mainLoop seq fuel i cur st).rounds = fuel ∧
      (mainLoop seq fuel i cur st).current.toolCalls ≠ [] := by
  intro fuel
  induction fuel with
  | zero => intro i cur st hcur; exact ⟨rfl, hcur⟩
  | succ n ih =>
    intro i cur st hcur
    have hemp : cur.toolCalls.isEmpty = false := by
      simp [List.isEmpty_iff, hcur]
    rw [mainLoop]
    simp only [hemp, Bool.false_eq_true, if_false]
    obtain ⟨h1, h2⟩ :=
      ih (i + 1) (seq i) (recordEvent (toolRound st cur) (Event.modelCall true)) (hseq i)
    exact ⟨by rw [h1], h2⟩

/-- C2.  For every backend that requests at least one tool call in
every response, `process_turn` terminates with exactly `MAX_LOOPS = 10`
tool rounds run with tools offered; the final pending batch is then
executed exactly once more and a single model call with no tools
offered produces the terminal response, which (by the no-tools
contract) carries no tool calls. -/
theorem processTurn_round_limit (sysPrompt : String) (seq : Nat → Response)
    (noToolsResp : Response) (hfFuel : Nat) (userInput : String) (st0 : LoopState)
    (hseq : ∀ i, (seq i).toolCalls ≠ [])
    (hforced : noToolsResp.toolCalls = []) :
    (processTurn sysPrompt seq noToolsResp hfFuel userInput st0).rounds = 10 ∧
    (processTurn sysPrompt seq noToolsResp hfFuel userInput st0).finalBatchRun = true ∧
    (processTurn sysPrompt seq noToolsResp hfFuel userInput st0).forcedFinalCall = true ∧
    (processTurn sysPrompt seq noToolsResp hfFuel userInput st0).finalResponse = noToolsResp ∧
    (processTurn sysPrompt seq noToolsResp hfFuel userInput st0).finalResponse.toolCalls = [] := by
  unfold processTurn
  obtain ⟨h1, h2⟩ := mainLoop_all_tools seq hseq maxLoops 1 (seq 0)
    (turnStart sysPrompt userInput st0) (hseq 0)
  simp only [h2, not_false_iff, List.isEmpty_iff, if_pos]
  exact ⟨h1, trivial, trivial, trivial, hforced⟩

def c2ToolResp : Response :=
  ⟨"", [⟨"call_1", "function", "read_file", "\x7b\"filename\": \"OUTLINE.md\"\x7d"⟩]⟩

def c2Done : Response := ⟨"Done.", []⟩

def c2State : LoopState := ⟨[], [], [], [], []⟩

/-- Witness for C2: a backend that requests a `read_file` call on every
response runs exactly ten rounds, one extra batch, and one forced
no-tools call. -/
theorem processTurn_round_limit_witness :
    (processTurn "SYS" (fun _ => c2ToolResp) c2Done 3 "write" c2State).rounds = 10 ∧
    (processTurn "SYS" (fun _ => c2ToolResp) c2Done 3 "write" c2State).finalBatchRun = true ∧
    (processTurn "SYS" (fun _ => c2ToolResp) c2Done 3 "write" c2State).forcedFinalCall = true ∧
    (processTurn "SYS" (fun _ => c2ToolResp) c2Done 3 "write" c2State).finalResponse = c2Done ∧
    (processTurn "SYS" (fun _ => c2ToolResp) c2Done 3 "write"
      c2State).finalResponse.toolCalls = [] :=
  processTurn_round_limit "SYS" (fun _ => c2ToolResp) c2Done 3 "write" c2State
    (fun _ => show c2ToolResp.toolCalls ≠ [] by decide) (by decide)

theorem savesIn_append (a b : List Event) : savesIn (a ++ b) = savesIn a + savesIn b := by
  simp [savesIn, List.filter_append]

theorem events_appendMessages (st : LoopState) (m : Msg) :
    (appendMessages st m).events = st.events := rfl

theorem savesIn_appendHistory (st : LoopState) (m : Msg) :
    savesIn (appendHistory st m).events = savesIn st.events := by
  simp [appendHistory, savesIn_append, savesIn, isSaveEvent]

theorem savesIn_recordEvent (st : LoopState) (e : Event) (he : isSaveEvent e = false) :
    savesIn (recordEvent st e).events = savesIn st.events := by
  simp [recordEvent, savesIn_append, savesIn, he]

theorem savesIn_recordEvent_modelCall (st : LoopState) (b : Bool) :
    savesIn (recordEvent st (Event.modelCall b)).events = savesIn st.events :=
  savesIn_recordEvent st _ rfl

theorem savesIn_recordEvent_retry (st : LoopState) :
    savesIn (recordEvent st Event.retryCall).events = savesIn st.events :=
  savesIn_recordEvent st _ rfl

theorem savesIn_recordEvent_warn (st : LoopState) :
    savesIn (recordEvent st Event.warnRaw).events = savesIn st.events :=
  savesIn_recordEvent st _ rfl

theorem savesIn_recordEvent_surface (st : LoopState) (c : String) :
    savesIn (recordEvent st (Event.surface c)).events = savesIn st.events :=
  savesIn_recordEvent st _ rfl

theorem savesIn_toolCallStep (st : LoopState) (tc : ToolCallRec) :
    savesIn (toolCallStep st tc).events = savesIn st.events := by
  unfold toolCallStep
  dsimp only
  rw [events_appendMessages, savesIn_appendHistory]
  split
  · rw [savesIn_appendHistory, events_appendMessages]
  · rfl

theorem savesIn_foldl_toolCallStep (l : List ToolCallRec) :
    ∀ st, savesIn ((l.foldl toolCallStep st).events) = savesIn st.events := by
  induction l with
  | nil => intro st; rfl
  | cons tc t ih => intro st; rw [List.foldl_cons, ih, savesIn_toolCallStep]

theorem savesIn_toolRound (st : LoopState) (r : Response) :
    savesIn (toolRound st r).events = savesIn st.events := by
  unfold toolRound
  dsimp only
  rw [savesIn_foldl_toolCallStep, events_appendMessages, savesIn_appendHistory]

theorem savesIn_mainLoop (seq : Nat → Response) :
    ∀ fuel i cur st, savesIn (mainLoop seq fuel i cur st).state.events = savesIn st.events := by
  intro fuel
  induction fuel with
  | zero => intro i cur st; rfl
  | succ n ih =>
    intro i cur st
    rw [mainLoop]
    split
    · rfl
    · dsimp only
      rw [ih, savesIn_recordEvent_modelCall, savesIn_toolRound]

theorem savesIn_finalBatchStep (st : LoopState) (tc : ToolCallRec) :
    savesIn (finalBatchStep st tc).events = savesIn st.events := by
  unfold finalBatchStep
  dsimp only
  rw [events_appendMessages, savesIn_appendHistory]

theorem savesIn_foldl_finalBatchStep (l : List ToolCallRec) :
    ∀ st, savesIn ((l.foldl finalBatchStep st).events) = savesIn st.events := by
  induction l with
  | nil => intro st; rfl
  | cons tc t ih => intro st; rw [List.foldl_cons, ih, savesIn_finalBatchStep]

theorem savesIn_handleFinalResponse (sysPrompt : String) (seq : Nat → Response) :
    ∀ fuel i resp st,
      savesIn (handleFinalResponse sysPrompt seq fuel i resp st).1.events =
        savesIn st.events := by
  intro fuel
  induction fuel with
  | zero =>
    intro i resp st
    rw [handleFinalResponse]
    split
    · rfl
    · split
      · dsimp only
        rw [savesIn_recordEvent_surface, savesIn_appendHistory]
      · rfl
  | succ n ih =>
    intro i resp st
    rw [handleFinalResponse]
    split
    · dsimp only
      rw [ih]
      split
      · rw [savesIn_recordEvent_warn, savesIn_recordEvent_retry]
        dsimp only
        rw [savesIn_appendHistory]
      · rw [savesIn_recordEvent_retry]
        dsimp only
        rw [savesIn_appendHistory]
    · split
      · dsimp only
        rw [savesIn_recordEvent_surface, savesIn_appendHistory]
      · rfl

theorem savesIn_turnStart (sysPrompt userInput : String) (st0 : LoopState) :
    savesIn (turnStart sysPrompt userInput st0).events = savesIn st0.events := by
  unfold turnStart
  dsimp only
  rw [savesIn_recordEvent_modelCall]
  exact savesIn_appendHistory st0 _

theorem savesIn_processTurn (sysPrompt : String) (seq : Nat → Response)
    (noToolsResp : Response) (hfFuel : Nat) (userInput : String) (st0 : LoopState) :
    savesIn (processTurn sysPrompt seq noToolsResp hfFuel userInput st0).state.events =
      savesIn st0.events := by
  unfold processTurn
  dsimp only
  split
  · dsimp only
    rw [savesIn_handleFinalResponse, savesIn_recordEvent_modelCall,
      savesIn_foldl_finalBatchStep, events_appendMessages, savesIn_appendHistory,
      savesIn_mainLoop, savesIn_turnStart]
  · dsimp only
    rw [savesIn_handleFinalResponse, savesIn_mainLoop, savesIn_turnStart]

def c3ToolResp : Response :=
  ⟨"", [⟨"c1", "function", "read_file", "\x7b\"filename\": \"OUTLINE.md\"\x7d"⟩]⟩

def c3Done : Response := ⟨"All set.", []⟩

def c3State : LoopState := ⟨[], [], [], [], []⟩

/-- C3 counterexample.  In a turn with one tool round the History
receives several appends with no save between them — the only save of
the whole `start` iteration comes after the turn — so the trace
violates "the full History is serialized after every append, before
the next state-changing step". -/
theorem processTurn_not_persisting_each_append :
    persistedAfterEveryAppend
      (startIteration "SYS" (fun i => if i = 0 then c3ToolResp else c3Done) c3Done 3 "hi"
        c3State).events false = false := by decide

/-- C3 amended.  `process_turn` performs no session save at all: the
full History is serialized exactly once per `start` iteration, after
the turn completes, and only at that point does the persisted Session
Record mirror the in-memory History (`SyncRunner._process_turn` is the
flow that saves after every append). -/
theorem session_saved_once_after_turn (sysPrompt : String) (seq : Nat → Response)
    (noToolsResp : Response) (hfFuel : Nat) (userInput : String) (st0 : LoopState) :
    savesIn (processTurn sysPrompt seq noToolsResp hfFuel userInput st0).state.events =
      savesIn st0.events ∧
    (startIteration sysPrompt seq noToolsResp hfFuel userInput st0).events =
      (processTurn sysPrompt seq noToolsResp hfFuel userInput st0).state.events
        ++ [Event.saveSession] ∧
    (startIteration sysPrompt seq noToolsResp hfFuel userInput st0).persisted =
      (startIteration sysPrompt seq noToolsResp hfFuel userInput st0).history :=
  ⟨savesIn_processTurn sysPrompt seq noToolsResp hfFuel userInput st0, rfl, rfl⟩

def c5Call (cid : String) : ToolCallRec :=
  ⟨cid, "function", "write_file", "\x7b\"filename\": \"drafts/chapter_01.md\"\x7d"⟩

def c5History : List Msg :=
  [⟨Role.user, "write chapter 1", [], none⟩,
   ⟨Role.assistant, "", [c5Call "call_1"], none⟩,
   ⟨Role.tool, writeFileContentMsg, [], some "call_1"⟩,
   ⟨Role.assistant, "", [c5Call "call_2"], none⟩,
   ⟨Role.tool, writeFileContentMsg, [], some "call_2"⟩]

def c5State : LoopState := ⟨c5History, [], [], [], []⟩

/-- C5 (code bug).  The missing-content error from `write_file` is the
special remediation string of `tools.py`, which does not contain the
substring `"Error: Missing required parameters: content"` that
`process_turn` watches for — so with two such failures already in the
trailing window, a third `write_file` call without content still
injects no corrective system message, even though the correction text
itself speaks about `write_file`. -/
theorem writeFile_missing_content_correction_never_fires :
    (registryExecute c5State.store (c5Call "call_3")).1 = writeFileContentMsg ∧
    strContains writeFileContentMsg "Error: Missing required parameters: content" = false ∧
    recentMissingContentErrors c5State.history = 0 ∧
    (toolCallStep c5State (c5Call "call_3")).history =
      c5History ++ [⟨Role.tool, writeFileContentMsg, [], some "call_3"⟩] ∧
    missingContentCorrection ∉ (toolCallStep c5State (c5Call "call_3")).history := by
  set_option maxRecDepth 4000 in decide

def c6Fake : Response := ⟨"I will use tool_call to write the chapter.", []⟩

def c6State : LoopState := ⟨[], [], [], [], []⟩

/-- C6 (code bug).  Against a backend that keeps emitting fake
tool-call text, `_handle_final_response` retries at every recursion
level and never surfaces the raw output: at truncation depth 5 the
trace already holds five corrective retries and no surfaced answer,
contradicting the claimed at-most-one retry followed by surfacing the
raw output with a warning. -/
theorem fakeToolCall_retry_unbounded :
    retriesIn (handleFinalResponse "SYS" (fun _ => c6Fake) 5 0 c6Fake c6State).1.events = 5 ∧
    surfacesIn (handleFinalResponse "SYS" (fun _ => c6Fake) 5 0 c6Fake c6State).1.events = 0 ∧
    ¬ (retriesIn (handleFinalResponse "SYS" (fun _ => c6Fake) 5 0 c6Fake
        c6State).1.events ≤ 1) := by
  decide

theorem strAppend_assoc (a b c : String) : a ++ b ++ c = a ++ (b ++ c) :=
  congrArg String.mk (List.append_assoc a.data b.data c.data)

/-- C7.  For every registered tool whose parsed arguments lack a
required parameter (absent, `None`, or the empty string), `execute`
returns a result string — never an exception — that starts with
`Error:` and names a missing parameter, with the `content` remediation
hint whenever `write_file` lacks `content`; the store is returned
unchanged because the underlying operation is never invoked. -/
theorem execute_missing_params (st : Store) (tc : ToolCallRec)
    (kvs : List (String × Json)) (missing : List String)
    (hparse : parseArguments tc.arguments tc.name = some (Json.obj kvs))
    (hreg : registeredNames.contains tc.name = true)
    (hmiss : missingScan (Json.obj kvs) (requiredParams tc.name) = some missing)
    (hne : missing ≠ []) :
    registryExecute st tc = (missingMessage tc.name missing, st) ∧
    (∃ rest, missingMessage tc.name missing = "Error: " ++ rest) ∧
    (∃ p ∈ missing, strContains (missingMessage tc.name missing) p = true) ∧
    (tc.name = "write_file" → "content" ∈ missing →
      strContains (missingMessage tc.name missing) "content" = true) := by
  have hemp : missing.isEmpty = false := by simp [List.isEmpty_iff, hne]
  refine ⟨?_, ?_, ?_, ?_⟩
  · unfold registryExecute
    rw [hparse]
    dsimp only
    rw [hreg]
    simp only [if_true]
    rw [hmiss]
    dsimp only
    simp only [hemp, Bool.false_eq_true, if_false]
  · unfold missingMessage
    split
    · exact ⟨"write_file tool was called without the 'content' parameter. You MUST provide the complete chapter text in the 'content' parameter. Please call write_file again with both 'filename' and 'content' parameters.", rfl⟩
    · split
      · exact ⟨"write_file tool was called without the 'filename' parameter. Please provide the file path (e.g., 'drafts/chapter_21.md').", rfl⟩
      · refine ⟨"Missing required parameters: " ++ joinComma missing, ?_⟩
        rw [genericMissingMsg, ← strAppend_assoc]
        rfl
  · unfold missingMessage
    split
    · next h => exact ⟨"content", by simpa using h.2, by decide⟩
    · split
      · next h => exact ⟨"filename", by simpa using h.2, by decide⟩
      · cases missing with
        | nil => exact absurd rfl hne
        | cons p rest =>
          exact ⟨p, List.mem_cons_self p rest,
            strContains_head_joinComma "Error: Missing required parameters: " p rest⟩
  · intro hname hmem
    unfold missingMessage
    rw [if_pos ⟨hname, by simpa using hmem⟩]
    decide

def c7Call : ToolCallRec := ⟨"w1", "function", "write_file", "\x7b\"filename\": \"a.md\"\x7d"⟩

def c7Store : Store := [("a.md", "old draft")]

/-- Witness for C7: `write_file` invoked with only `filename`. -/
theorem execute_missing_params_witness :
    registryExecute c7Store c7Call = (missingMessage "write_file" ["content"], c7Store) ∧
    (∃ rest, missingMessage "write_file" ["content"] = "Error: " ++ rest) ∧
    (∃ p ∈ ["content"], strContains (missingMessage "write_file" ["content"]) p = true) ∧
    ("write_file" = "write_file" → "content" ∈ ["content"] →
      strContains (missingMessage "write_file" ["content"]) "content" = true) :=
  execute_missing_params c7Store c7Call [("filename", Json.str "a.md")] ["content"]
    rfl rfl rfl (by decide)

end NovelBot
